import Mathlib

/-!
Shallow embedding of the core of `yuwell_analyzer.py` (the `parse_bys_file`
function): a marker scanner over a byte buffer and a record decoder for
30-byte windows.  Bytes are modelled as `Nat` (values 0..255 in practice; no
arithmetic in the scanner depends on the bound).  The Python `while True`
loop with `content.find(magic, offset)` becomes the well-founded recursion
`scanFrom`; `str.find` becomes `findMagic` (smallest occurrence at or after
the cursor).
-/

/-- The 4-byte magic marker `b'\x28\x46\x96\x28'` (line 33 of the source). -/
def magicBytes : List Nat := [0x28, 0x46, 0x96, 0x28]

/-- `matchesAt content idx` holds when the magic marker occurs at byte
offset `idx` of `content`, i.e. `content[idx:idx+4] == magic`. -/
def matchesAt (content : List Nat) (idx : Nat) : Bool :=
  (content.drop idx).take 4 == magicBytes

/-- Linear search helper for `content.find(magic, offset)`: try indices
`i, i+1, ...` for at most `fuel` steps, returning the first match. -/
def findMagicAux (content : List Nat) (i : Nat) : Nat → Option Nat
  | 0 => none
  | fuel + 1 =>
    if matchesAt content i then some i
    else findMagicAux content (i + 1) fuel

/-- `content.find(magic, offset)` of line 37: the least index `idx ≥ offset`
with the magic marker at `idx`, or `none`.  Indices `≥ content.length`
cannot match (a match needs 4 bytes), so `content.length - offset` steps
of search suffice. -/
def findMagic (content : List Nat) (offset : Nat) : Option Nat :=
  findMagicAux content offset (content.length - offset)

/-- Result of decoding one 6-byte raw timestamp: either a structurally
valid calendar timestamp or the `Invalid Date` sentinel of lines 62/70. -/
inductive TimestampResult where
  | Valid (year month day hour minute second : Nat)
  | Invalid
  deriving Repr, DecidableEq

/-- Gregorian leap-year test, as implemented by Python's `datetime`. -/
def isLeap (y : Nat) : Bool :=
  (y % 4 == 0 && y % 100 != 0) || y % 400 == 0

/-- Number of days of month `m` in year `y` (proleptic Gregorian, as
implemented by Python's `datetime`). -/
def daysInMonth (y m : Nat) : Nat :=
  if m = 2 then (if isLeap y then 29 else 28)
  else if m = 4 ∨ m = 6 ∨ m = 9 ∨ m = 11 then 30
  else 31

/-- Decode one 6-byte raw timestamp, lines 56-62 (resp. 64-70) of the
source.  The source formats the six bytes with
`f"20{b0:02d}-{b1:02d}-{b2:02d} {b3:02d}:{b4:02d}:{b5:02d}"` and then
validates via `datetime.strptime(s, '%Y-%m-%d %H:%M:%S')`, catching every
exception as `Invalid Date`.  CPython's `strptime` compiles `%Y` to the
regular expression `\d\d\d\d` (exactly four digits) and requires the whole
string to be consumed, and `datetime` enforces month 1-12, day 1-daysInMonth
(proleptic Gregorian), hour 0-23, minute 0-59, second 0-59.  Hence:

* a first byte `b0 ≥ 100` yields the string `"20"` followed by three or
  more digits, so `%Y` consumes `"20" ++ (first two digits)` and the next
  digit fails to match the literal `-`: the parse fails and the result is
  `Invalid`; equivalently the decode succeeds only when `b0 ≤ 99`, in which
  case the year is exactly `2000 + b0`;
* any other component whose decimal rendering has three digits likewise
  fails the fixed-shape pattern, and two-digit values out of calendar or
  clock range are rejected by the `datetime` constructor; both cases land
  in the same `except` branch.

So the decode succeeds exactly when `b0 ≤ 99`, the month is in 1..12, the
day is in 1..daysInMonth, the hour is in 0..23 and minute and second are in
0..59; anything else (including a raw input that is not 6 bytes, which the
caller never produces) is `Invalid`. -/
def decode_timestamp (raw : List Nat) : TimestampResult :=
  match raw with
  | [yy, mm, dd, hh, mi, ss] =>
    if yy ≤ 99 ∧ 1 ≤ mm ∧ mm ≤ 12 ∧ 1 ≤ dd ∧ dd ≤ daysInMonth (2000 + yy) mm
        ∧ hh ≤ 23 ∧ mi ≤ 59 ∧ ss ≤ 59 then
      TimestampResult.Valid (2000 + yy) mm dd hh mi ss
    else TimestampResult.Invalid
  | _ => TimestampResult.Invalid

/-- One decoded record, the typed form of the dictionary built at lines
81-92 of the source (hex formatting of `offset` and `spacer` is
presentation and kept numeric here). -/
structure RawRecord where
  offset : Nat
  values : List Nat
  start_time : TimestampResult
  end_time : TimestampResult
  spacer : Nat
  deriving Repr, DecidableEq

/-- Big-endian unsigned 16-bit integer from two bytes (`struct.unpack('>H', ...)`). -/
def be16 (hi lo : Nat) : Nat := 256 * hi + lo

/-- The six big-endian unsigned 16-bit data values of window bytes
`[4:16)`, `struct.unpack('>6H', record_bytes[4:16])` of lines 52-53.
The scanner only ever passes windows of exactly 30 bytes, so the default
byte 0 of `getD` is never used. -/
def decodeValues (w : List Nat) : List Nat :=
  [ be16 (w.getD 4 0) (w.getD 5 0)
  , be16 (w.getD 6 0) (w.getD 7 0)
  , be16 (w.getD 8 0) (w.getD 9 0)
  , be16 (w.getD 10 0) (w.getD 11 0)
  , be16 (w.getD 12 0) (w.getD 13 0)
  , be16 (w.getD 14 0) (w.getD 15 0) ]

/-- Decode one 30-byte window found at byte offset `idx`, lines 48-92 of
the source: six values from `[4:16)`, start timestamp from `[16:22)`, end
timestamp from `[22:28)`, spacer from `[28:30)`. -/
def decodeWindow (w : List Nat) (idx : Nat) : RawRecord :=
  { offset := idx
  , values := decodeValues w
  , start_time := decode_timestamp ((w.drop 16).take 6)
  , end_time := decode_timestamp ((w.drop 22).take 6)
  , spacer := be16 (w.getD 28 0) (w.getD 29 0) }

/-- The scan loop of lines 35-95: find the next marker at or after the
cursor; stop on no match; stop (discarding the partial tail window) when
fewer than 30 bytes remain from the match; otherwise decode the 30-byte
window and continue with the cursor advanced to `idx + 4` (line 95). -/
def scanFrom (content : List Nat) (offset : Nat) : List RawRecord :=
  match h : findMagic content offset with
  | none => []
  | some idx =>
    if content.length < idx + 30 then []
    else
      decodeWindow ((content.drop idx).take 30) idx ::
        scanFrom content (idx + 4)
termination_by content.length - offset
decreasing_by
  have h1 : offset ≤ idx ∧ matchesAt content idx = true := by
    have hgen : ∀ fuel i j, findMagicAux content i fuel = some j →
        i ≤ j ∧ matchesAt content j = true := by
      intro fuel
      induction fuel with
      | zero => intro i j hh; simp [findMagicAux] at hh
      | succ n ih =>
        intro i j hh
        unfold findMagicAux at hh
        by_cases hm : matchesAt content i
        · simp [hm] at hh
          subst hh
          exact ⟨le_refl i, hm⟩
        · simp [hm] at hh
          obtain ⟨ha, hb⟩ := ih (i + 1) j hh
          exact ⟨by omega, hb⟩
    exact hgen _ offset idx h
  have h2 : idx + 4 ≤ content.length := by
    have hb := h1.2
    unfold matchesAt at hb
    have hlen : ((content.drop idx).take 4).length = magicBytes.length := by
      rw [eq_of_beq hb]
    simp [magicBytes, List.length_take, List.length_drop] at hlen
    omega
  omega

/-- The whole-buffer scan, `scan(buffer)`: start the cursor at 0 (line 35). -/
def scan (content : List Nat) : List RawRecord := scanFrom content 0

/-- Concrete test buffer: two back-to-back well-formed 30-byte windows. -/
def bufTwoBlocks : List Nat :=
  (magicBytes ++ List.replicate 26 0) ++ (magicBytes ++ List.replicate 26 0)

/-- Concrete test buffer: 33 bytes with the marker at offset 4, leaving a
29-byte tail window, one byte short of a full record. -/
def bufShortTail : List Nat :=
  List.replicate 4 0 ++ magicBytes ++ List.replicate 25 0

/-- Concrete test buffer: two marker occurrences 4 bytes apart, with 30
bytes available from each (34 bytes total). -/
def bufOverlap : List Nat := magicBytes ++ magicBytes ++ List.replicate 26 0

/-- Concrete test buffer: one full window whose start timestamp bytes are
`[24, 2, 30, 0, 0, 0]`, the nonexistent date February 30. -/
def bufFeb30 : List Nat :=
  magicBytes ++ List.replicate 12 0 ++ [24, 2, 30, 0, 0, 0]
    ++ [24, 2, 15, 0, 0, 0] ++ [0, 0]

/-- Concrete test buffer: one full window with distinct data bytes. -/
def bufOneRecord : List Nat :=
  magicBytes ++ [1, 2, 3, 4, 5, 6, 7, 8, 9, 10, 11, 12]
    ++ [24, 1, 15, 8, 30, 0] ++ [24, 1, 15, 9, 0, 0] ++ [0, 42]

/-- The record decoded from the single window of `bufOneRecord`. -/
def recOne : RawRecord := decodeWindow ((bufOneRecord.drop 0).take 30) 0

/-- A successful match gives at least 4 bytes from `idx` on. -/
theorem matchesAt_le (content : List Nat) (idx : Nat)
    (h : matchesAt content idx = true) : idx + 4 ≤ content.length := by
  unfold matchesAt at h
  have hlen : ((content.drop idx).take 4).length = magicBytes.length := by
    rw [eq_of_beq h]
  simp [magicBytes, List.length_take, List.length_drop] at hlen
  omega

/-- Soundness of the search helper: a returned index is in the searched
range, matches, and nothing before it in the range matches. -/
theorem findMagicAux_some (content : List Nat) :
    ∀ fuel i idx, findMagicAux content i fuel = some idx →
      i ≤ idx ∧ idx < i + fuel ∧ matchesAt content idx = true ∧
        ∀ p, i ≤ p → p < idx → matchesAt content p = false := by
  intro fuel
  induction fuel with
  | zero => intro i idx h; simp [findMagicAux] at h
  | succ n ih =>
    intro i idx h
    unfold findMagicAux at h
    by_cases hm : matchesAt content i
    · simp [hm] at h
      subst h
      exact ⟨le_refl i, by omega, hm, fun p hp1 hp2 => absurd hp1 (by omega)⟩
    · simp [hm] at h
      obtain ⟨h1, h2, h3, h4⟩ := ih (i + 1) idx h
      refine ⟨by omega, by omega, h3, fun p hp1 hp2 => ?_⟩
      rcases Nat.eq_or_lt_of_le hp1 with heq | hlt
      · simpa [← heq] using Bool.of_not_eq_true hm
      · exact h4 p hlt hp2

/-- Soundness of `findMagic`: a returned index is at or after the cursor,
matches the magic, has 4 bytes available, and is the least such index. -/
theorem findMagic_some (content : List Nat) (offset idx : Nat)
    (h : findMagic content offset = some idx) :
    offset ≤ idx ∧ matchesAt content idx = true ∧ idx + 4 ≤ content.length ∧
      ∀ p, offset ≤ p → p < idx → matchesAt content p = false := by
  obtain ⟨h1, _, h3, h4⟩ := findMagicAux_some content _ _ _ h
  exact ⟨h1, h3, matchesAt_le content idx h3, h4⟩


/-- A failed bounded search means no index of the searched range matches. -/
theorem findMagicAux_none (content : List Nat) :
    ∀ fuel i, findMagicAux content i fuel = none →
      ∀ p, i ≤ p → p < i + fuel → matchesAt content p = false := by
  intro fuel
  induction fuel with
  | zero => intro i _ p hp1 hp2; omega
  | succ n ih =>
    intro i h p hp1 hp2
    unfold findMagicAux at h
    by_cases hm : matchesAt content i
    · simp [hm] at h
    · simp [hm] at h
      rcases Nat.eq_or_lt_of_le hp1 with heq | hlt
      · simpa [← heq] using Bool.of_not_eq_true hm
      · exact ih (i + 1) h p hlt (by omega)

/-- The bounded search finds the least matching index of its range. -/
theorem findMagicAux_complete (content : List Nat) :
    ∀ fuel i idx, matchesAt content idx = true → i ≤ idx → idx < i + fuel →
      (∀ p, i ≤ p → p < idx → matchesAt content p = false) →
      findMagicAux content i fuel = some idx := by
  intro fuel
  induction fuel with
  | zero => intro i idx _ h1 h2 _; omega
  | succ n ih =>
    intro i idx hm h1 h2 hmin
    unfold findMagicAux
    rcases Nat.eq_or_lt_of_le h1 with heq | hlt
    · subst heq; simp [hm]
    · have hi : matchesAt content i = false := hmin i (le_refl i) hlt
      simp [hi]
      exact ih (i + 1) idx hm hlt (by omega) fun p hp1 hp2 => hmin p (by omega) hp2

/-- If `findMagic` reports no match, no index at or after the cursor matches. -/
theorem findMagic_none (content : List Nat) (offset : Nat)
    (h : findMagic content offset = none) :
    ∀ p, offset ≤ p → matchesAt content p = false := by
  intro p hp
  by_cases hrange : p < offset + (content.length - offset)
  · exact findMagicAux_none content _ offset h p hp hrange
  · cases hb : matchesAt content p with
    | false => rfl
    | true => have := matchesAt_le content p hb; omega

/-- `findMagic` finds the least matching index at or after the cursor. -/
theorem findMagic_complete (content : List Nat) (offset idx : Nat)
    (hm : matchesAt content idx = true) (ho : offset ≤ idx)
    (hmin : ∀ p, offset ≤ p → p < idx → matchesAt content p = false) :
    findMagic content offset = some idx := by
  have h4 := matchesAt_le content idx hm
  exact findMagicAux_complete content _ offset idx hm ho (by omega) hmin

/-- Unfolding `scanFrom` when no further marker exists. -/
theorem scanFrom_none (content : List Nat) (o : Nat)
    (h : findMagic content o = none) : scanFrom content o = [] := by
  rw [scanFrom]
  split
  · rfl
  · rename_i idx heq
    rw [h] at heq
    cases heq

/-- Unfolding `scanFrom` when the next marker leaves fewer than 30 bytes:
the partial tail window is dropped and the loop stops (lines 45-46). -/
theorem scanFrom_trunc (content : List Nat) (o idx : Nat)
    (h : findMagic content o = some idx) (h2 : content.length < idx + 30) :
    scanFrom content o = [] := by
  rw [scanFrom]
  split
  · rfl
  · rename_i j heq
    rw [h] at heq
    cases heq
    rw [if_pos h2]

/-- Unfolding `scanFrom` when a full window is available: decode it and
continue from `idx + 4`. -/
theorem scanFrom_cons (content : List Nat) (o idx : Nat)
    (h : findMagic content o = some idx) (h2 : idx + 30 ≤ content.length) :
    scanFrom content o =
      decodeWindow ((content.drop idx).take 30) idx :: scanFrom content (idx + 4) := by
  rw [scanFrom]
  split
  · rename_i heq
    rw [h] at heq
    cases heq
  · rename_i j heq
    rw [h] at heq
    cases heq
    rw [if_neg (by omega)]

/-- Every record the loop emits lies at or after the cursor, fits in the
buffer, and is the decode of the 30-byte window at its own offset. -/
theorem scanFrom_mem (content : List Nat) :
    ∀ n o, content.length - o ≤ n → ∀ r, r ∈ scanFrom content o →
      o ≤ r.offset ∧ r.offset + 30 ≤ content.length ∧
        r = decodeWindow ((content.drop r.offset).take 30) r.offset := by
  intro n
  induction n with
  | zero =>
    intro o hn r hr
    have hnone : findMagic content o = none := by
      unfold findMagic
      have h0 : content.length - o = 0 := by omega
      rw [h0]
      rfl
    rw [scanFrom_none content o hnone] at hr
    cases hr
  | succ n ih =>
    intro o hn r hr
    cases hfind : findMagic content o with
    | none =>
      rw [scanFrom_none content o hfind] at hr
      cases hr
    | some idx =>
      obtain ⟨h1, h2, h3, _⟩ := findMagic_some content o idx hfind
      by_cases htr : content.length < idx + 30
      · rw [scanFrom_trunc content o idx hfind htr] at hr
        cases hr
      · rw [scanFrom_cons content o idx hfind (by omega)] at hr
        rcases List.mem_cons.mp hr with hr | hr
        · subst hr
          exact ⟨h1, by simp [decodeWindow]; omega, by simp [decodeWindow]⟩
        · obtain ⟨ha, hb, hc⟩ := ih (idx + 4) (by omega) r hr
          exact ⟨by omega, hb, hc⟩

/-- The offsets of the emitted records are strictly increasing. -/
theorem scanFrom_sorted (content : List Nat) :
    ∀ n o, content.length - o ≤ n →
      List.Pairwise (fun a b => a < b) ((scanFrom content o).map RawRecord.offset) := by
  intro n
  induction n with
  | zero =>
    intro o hn
    have hnone : findMagic content o = none := by
      unfold findMagic
      have h0 : content.length - o = 0 := by omega
      rw [h0]
      rfl
    rw [scanFrom_none content o hnone]
    exact List.Pairwise.nil
  | succ n ih =>
    intro o hn
    cases hfind : findMagic content o with
    | none =>
      rw [scanFrom_none content o hfind]
      exact List.Pairwise.nil
    | some idx =>
      obtain ⟨h1, h2, h3, _⟩ := findMagic_some content o idx hfind
      by_cases htr : content.length < idx + 30
      · rw [scanFrom_trunc content o idx hfind htr]
        exact List.Pairwise.nil
      · rw [scanFrom_cons content o idx hfind (by omega), List.map_cons]
        refine List.pairwise_cons.mpr ⟨?_, ih (idx + 4) (by omega)⟩
        intro b hb
        rw [List.mem_map] at hb
        obtain ⟨r, hr, hrb⟩ := hb
        have hge := (scanFrom_mem content (content.length - (idx + 4)) (idx + 4)
          (le_refl _) r hr).1
        subst hrb
        simp [decodeWindow]
        omega

/-- On a buffer of `k` back-to-back 30-byte windows whose only marker
occurrences are at offsets `0, 30, 60, ...`, the loop started at a cursor
`o` just past the marker of block `j - 1` (or at 0 for `j = 0`) emits the
records of blocks `j, j+1, ..., k-1`, in order. -/
theorem scanFrom_blocks (content : List Nat) (k : Nat)
    (hlen : content.length = 30 * k)
    (hmark : ∀ i, i < k → matchesAt content (30 * i) = true)
    (hstray : ∀ p, p < content.length → matchesAt content p = true → 30 ∣ p) :
    ∀ m j o, j + m = k → o ≤ 30 * j → 30 * j < o + 30 →
      (scanFrom content o).map RawRecord.offset
        = (List.range m).map fun i => 30 * (j + i) := by
  intro m
  induction m with
  | zero =>
    intro j o hjm ho1 ho2
    have hnone : findMagic content o = none := by
      cases hfind : findMagic content o with
      | none => rfl
      | some idx =>
        obtain ⟨h1, h2, h3, _⟩ := findMagic_some content o idx hfind
        obtain ⟨t, ht⟩ := hstray idx (by omega) h2
        omega
    rw [scanFrom_none content o hnone]
    simp
  | succ m ih =>
    intro j o hjm ho1 ho2
    have hjk : j < k := by omega
    have hfind : findMagic content o = some (30 * j) := by
      refine findMagic_complete content o (30 * j) (hmark j hjk) ho1 ?_
      intro p hp1 hp2
      cases hmp : matchesAt content p with
      | false => rfl
      | true =>
        have hp4 := matchesAt_le content p hmp
        obtain ⟨t, ht⟩ := hstray p (by omega) hmp
        omega
    rw [scanFrom_cons content o (30 * j) hfind (by omega), List.map_cons,
      ih (j + 1) (30 * j + 4) (by omega) (by omega) (by omega),
      List.range_succ_eq_map, List.map_cons, List.map_map]
    congr 1
    simp [Function.comp]
    intro a ha
    omega

/-- Claim C2 counterexample: the raw byte `yy = 100` satisfies every
hypothesis of the claim (month 1, day 15 is a valid date of year 2100,
hour 8, minute 30, second 0, and 100 is in the byte range 0..255), yet
`decode_timestamp` returns `Invalid`, not
`Valid 2100 1 15 8 30 0`: the source renders the year as the 5-digit
string `20100`, which `strptime`'s 4-digit `%Y` pattern rejects. -/
theorem decode_timestamp_yy100_not_valid :
    decode_timestamp [100, 1, 15, 8, 30, 0] = TimestampResult.Invalid ∧
      decode_timestamp [100, 1, 15, 8, 30, 0]
        ≠ TimestampResult.Valid 2100 1 15 8 30 0 := by
  decide

/-- Claim C2 (amended): for all six timestamp bytes with `yy` in 0..99,
`mm` in 1..12, `dd` a valid day of month `mm` in year `2000 + yy`, `hh` in
0..23 and `mi`, `ss` in 0..59, `decode_timestamp` returns `Valid` with
exactly those six components, the year being `2000 + yy`. -/
theorem decode_timestamp_roundtrip (yy mm dd hh mi ss : Nat)
    (hyy : yy ≤ 99) (hmm1 : 1 ≤ mm) (hmm2 : mm ≤ 12) (hdd1 : 1 ≤ dd)
    (hdd2 : dd ≤ daysInMonth (2000 + yy) mm)
    (hhh : hh ≤ 23) (hmi : mi ≤ 59) (hss : ss ≤ 59) :
    decode_timestamp [yy, mm, dd, hh, mi, ss]
      = TimestampResult.Valid (2000 + yy) mm dd hh mi ss := by
  simp only [decode_timestamp]
  rw [if_pos ⟨hyy, hmm1, hmm2, hdd1, hdd2, hhh, hmi, hss⟩]

/-- Witness for the amended claim C2 at the concrete timestamp bytes
`[24, 1, 15, 8, 30, 0]`, decoding to 2024-01-15 08:30:00. -/
theorem decode_timestamp_roundtrip_witness :
    decode_timestamp [24, 1, 15, 8, 30, 0]
      = TimestampResult.Valid 2024 1 15 8 30 0 :=
  decode_timestamp_roundtrip 24 1 15 8 30 0 (by decide) (by decide) (by decide)
    (by decide) (by decide) (by decide) (by decide) (by decide)

/-- Claim C8: `decode_timestamp` returns `Invalid` for every 6-byte input
whose components violate the Gregorian calendar rules (month outside 1..12,
day 0 or beyond the month length, with February's length decided by the
leap-year rule) or the hour/minute/second ranges. -/
theorem decode_timestamp_invalid (yy mm dd hh mi ss : Nat)
    (hbad : mm = 0 ∨ 12 < mm ∨ dd = 0 ∨ daysInMonth (2000 + yy) mm < dd
      ∨ 23 < hh ∨ 59 < mi ∨ 59 < ss) :
    decode_timestamp [yy, mm, dd, hh, mi, ss] = TimestampResult.Invalid := by
  simp only [decode_timestamp]
  rw [if_neg]
  rintro ⟨h1, h2, h3, h4, h5, h6, h7, h8⟩
  omega

/-- Witness for claim C8 at the concrete components `mm = 2`, `dd = 30`,
`hh = 24`, `mi = 60` (February 30 of year 2024 plus out-of-range clock
fields): `decode_timestamp` returns `Invalid`. -/
theorem decode_timestamp_invalid_witness :
    (daysInMonth (2000 + 24) 2 < 30) ∧
      decode_timestamp [24, 2, 30, 24, 60, 0] = TimestampResult.Invalid :=
  ⟨by decide, decode_timestamp_invalid 24 2 30 24 60 0 (by decide)⟩

/-- Claim C10: for every raw timestamp whose first byte `yy` is in
100..255, `decode_timestamp` returns `Invalid` regardless of the other
five components: the source renders the year as the 5-or-more-digit string
`20` followed by the decimal digits of `yy`, which `strptime`'s 4-digit
`%Y` pattern never accepts. -/
theorem decode_timestamp_yy_overflow (yy mm dd hh mi ss : Nat)
    (h1 : 100 ≤ yy) (h2 : yy ≤ 255) :
    decode_timestamp [yy, mm, dd, hh, mi, ss] = TimestampResult.Invalid := by
  simp only [decode_timestamp]
  rw [if_neg]
  rintro ⟨ha, -, -, -, -, -, -, -⟩
  omega

/-- Witness for claim C10 at `yy = 150` with otherwise valid components
(June 10 of year 2150, 12:00:00): the decode is still `Invalid`. -/
theorem decode_timestamp_yy_overflow_witness :
    decode_timestamp [150, 6, 10, 12, 0, 0] = TimestampResult.Invalid :=
  decode_timestamp_yy_overflow 150 6 10 12 0 0 (by decide) (by decide)

/-- Claim C7: for every buffer shorter than 30 bytes (including the empty
buffer), `scan` returns the empty sequence: any marker occurrence would
leave fewer than 30 bytes, so the loop stops without emitting a record. -/
theorem scan_short_buffer (content : List Nat) (h : content.length < 30) :
    scan content = [] := by
  rw [scan]
  cases hfind : findMagic content 0 with
  | none => exact scanFrom_none content 0 hfind
  | some idx => exact scanFrom_trunc content 0 idx hfind (by omega)

/-- Witness for claim C7 at the empty buffer: `scan [] = []`. -/
theorem scan_short_buffer_witness :
    ([] : List Nat).length < 30 ∧ scan [] = [] :=
  ⟨by decide, scan_short_buffer [] (by decide)⟩

/-- Claim C1: on a buffer of `k` back-to-back well-formed 30-byte windows
(each starting with the magic marker, markers occurring nowhere else),
`scan` returns exactly `k` records, in scan order, the `i`-th at offset
`i * 30`. -/
theorem scan_back_to_back (content : List Nat) (k : Nat)
    (hlen : content.length = 30 * k)
    (hmark : ∀ i, i < k → matchesAt content (30 * i) = true)
    (hstray : ∀ p, p < content.length → matchesAt content p = true → 30 ∣ p) :
    (scan content).length = k ∧
      (scan content).map RawRecord.offset = (List.range k).map fun i => i * 30 := by
  have h := scanFrom_blocks content k hlen hmark hstray k 0 0 (by omega) (by omega)
    (by omega)
  constructor
  · have hlen2 := congrArg List.length h
    simpa [scan] using hlen2
  · simp only [scan]
    rw [h]
    simp
    intro a ha
    omega

/-- Witness for claim C1 on the concrete two-window buffer `bufTwoBlocks`:
its 60 bytes satisfy the hypotheses, and `scan` returns 2 records at
offsets `[0, 30]`. -/
theorem scan_back_to_back_witness :
    (bufTwoBlocks.length = 30 * 2 ∧
      (∀ i, i < 2 → matchesAt bufTwoBlocks (30 * i) = true) ∧
      (∀ p, p < bufTwoBlocks.length → matchesAt bufTwoBlocks p = true → 30 ∣ p)) ∧
      (scan bufTwoBlocks).length = 2 ∧
        (scan bufTwoBlocks).map RawRecord.offset
          = (List.range 2).map fun i => i * 30 :=
  ⟨⟨by decide, by decide, by decide⟩,
    scan_back_to_back bufTwoBlocks 2 (by decide) (by decide) (by decide)⟩

/-- Claim C3: when the next marker at or after the cursor sits at an offset
`idx` with fewer than 30 bytes remaining (`idx + 30 > length`), the loop
terminates successfully at that point and emits nothing further, so the
scan's output is exactly the records collected by earlier iterations; the
trailing partial window yields no record and no error. -/
theorem scan_truncated_tail (content : List Nat) (o idx : Nat)
    (h : findMagic content o = some idx) (h30 : content.length < idx + 30) :
    scanFrom content o = [] :=
  scanFrom_trunc content o idx h h30

/-- Witness for claim C3 on `bufShortTail`: the marker at offset 4 of the
33-byte buffer is one byte short of a full window (`4 + 30 = 34 = 33 + 1`)
and is dropped, the scan returning no record from that point. -/
theorem scan_truncated_tail_witness :
    (findMagic bufShortTail 0 = some 4 ∧ bufShortTail.length + 1 = 4 + 30) ∧
      scanFrom bufShortTail 0 = [] :=
  ⟨⟨by decide, by decide⟩,
    scan_truncated_tail bufShortTail 0 4 (by decide) (by decide)⟩

/-- Claim C4: after decoding the window matched at `idx` the loop resumes
the search at `idx + 4` (just past the marker, not past the window); hence
when a second marker occurs 4 bytes after the first and 30 bytes remain
from each, the scan emits two records with overlapping byte ranges, at
offsets `idx` and `idx + 4`, both decoded. -/
theorem scan_cursor_advance (content : List Nat) (o idx : Nat)
    (h : findMagic content o = some idx)
    (hm4 : matchesAt content (idx + 4) = true)
    (hlen : idx + 34 ≤ content.length) :
    scanFrom content o =
      decodeWindow ((content.drop idx).take 30) idx ::
        decodeWindow ((content.drop (idx + 4)).take 30) (idx + 4) ::
          scanFrom content (idx + 8) := by
  rw [scanFrom_cons content o idx h (by omega)]
  have hfind2 : findMagic content (idx + 4) = some (idx + 4) :=
    findMagic_complete content (idx + 4) (idx + 4) hm4 (le_refl _)
      fun p hp1 hp2 => absurd hp1 (by omega)
  rw [scanFrom_cons content (idx + 4) (idx + 4) hfind2 (by omega)]

/-- Witness for claim C4 on `bufOverlap`: markers at offsets 0 and 4 of the
34-byte buffer yield two overlapping decoded records. -/
theorem scan_cursor_advance_witness :
    (findMagic bufOverlap 0 = some 0 ∧ matchesAt bufOverlap (0 + 4) = true ∧
      0 + 34 ≤ bufOverlap.length) ∧
      scanFrom bufOverlap 0 =
        decodeWindow ((bufOverlap.drop 0).take 30) 0 ::
          decodeWindow ((bufOverlap.drop (0 + 4)).take 30) (0 + 4) ::
            scanFrom bufOverlap (0 + 8) :=
  ⟨⟨by decide, by decide, by decide⟩,
    scan_cursor_advance bufOverlap 0 0 (by decide) (by decide) (by decide)⟩

/-- Claim C5: for every input buffer, the sequence of records returned by
`scan` has strictly increasing `offset` fields, matching the left-to-right
scan order over the buffer. -/
theorem scan_offsets_increasing (content : List Nat) :
    List.Pairwise (fun a b => a < b) ((scan content).map RawRecord.offset) :=
  scanFrom_sorted content (content.length - 0) 0 (le_refl _)

/-- Claim C6: a full matched window always yields a record, even when its
start timestamp decodes to `Invalid`: the malformed timestamp is carried in
the record as the `Invalid` variant and neither aborts the scan nor
excludes the record from the output. -/
theorem scan_keeps_invalid_timestamp (content : List Nat) (o idx : Nat)
    (h : findMagic content o = some idx) (hlen : idx + 30 ≤ content.length)
    (hts : decode_timestamp ((((content.drop idx).take 30).drop 16).take 6)
      = TimestampResult.Invalid) :
    ∃ rest, scanFrom content o
        = decodeWindow ((content.drop idx).take 30) idx :: rest ∧
      (decodeWindow ((content.drop idx).take 30) idx).start_time
        = TimestampResult.Invalid :=
  ⟨scanFrom content (idx + 4), scanFrom_cons content o idx h hlen,
    by simp [decodeWindow, hts]⟩

/-- Witness for claim C6 on `bufFeb30`, whose start-timestamp bytes spell
the nonexistent date February 30: the record is still emitted, carrying
`Invalid` as its start time. -/
theorem scan_keeps_invalid_timestamp_witness :
    (findMagic bufFeb30 0 = some 0 ∧ 0 + 30 ≤ bufFeb30.length ∧
      decode_timestamp ((((bufFeb30.drop 0).take 30).drop 16).take 6)
        = TimestampResult.Invalid) ∧
      ∃ rest, scanFrom bufFeb30 0
          = decodeWindow ((bufFeb30.drop 0).take 30) 0 :: rest ∧
        (decodeWindow ((bufFeb30.drop 0).take 30) 0).start_time
          = TimestampResult.Invalid :=
  ⟨⟨by decide, by decide, by decide⟩,
    scan_keeps_invalid_timestamp bufFeb30 0 0 (by decide) (by decide) (by decide)⟩

/-- Claim C9: every record returned by `scan` carries exactly 6 `values`,
each the big-endian unsigned 16-bit integer of window bytes `4+2i, 5+2i`
(`values[i] = 256 * w[4+2i] + w[5+2i]`), and a `spacer` equal to the
big-endian 16-bit integer of window bytes 28, 29; the decoding is total,
succeeding for every byte pattern. -/
theorem scan_values_decoded (content : List Nat) (r : RawRecord)
    (hr : r ∈ scan content) :
    r.values.length = 6 ∧
      (∀ i, i < 6 → r.values.getD i 0
          = 256 * ((content.drop r.offset).take 30).getD (4 + 2 * i) 0
            + ((content.drop r.offset).take 30).getD (5 + 2 * i) 0) ∧
      r.spacer = 256 * ((content.drop r.offset).take 30).getD 28 0
            + ((content.drop r.offset).take 30).getD 29 0 := by
  obtain ⟨-, -, heq⟩ := scanFrom_mem content content.length 0 (by omega) r hr
  have hv : r.values = decodeValues ((content.drop r.offset).take 30) := by
    conv_lhs => rw [heq]
    rfl
  have hs : r.spacer = be16 (((content.drop r.offset).take 30).getD 28 0)
      (((content.drop r.offset).take 30).getD 29 0) := by
    conv_lhs => rw [heq]
    rfl
  refine ⟨?_, ?_, ?_⟩
  · rw [hv]; rfl
  · intro i hi
    rw [hv]
    interval_cases i <;> simp [decodeValues, be16]
  · rw [hs]; rfl

/-- Witness for claim C9 on `bufOneRecord`: its single record `recOne` is
in the scan output and satisfies the value and spacer equations. -/
theorem scan_values_decoded_witness :
    recOne ∈ scan bufOneRecord ∧
      (recOne.values.length = 6 ∧
        (∀ i, i < 6 → recOne.values.getD i 0
            = 256 * ((bufOneRecord.drop recOne.offset).take 30).getD (4 + 2 * i) 0
              + ((bufOneRecord.drop recOne.offset).take 30).getD (5 + 2 * i) 0) ∧
        recOne.spacer = 256 * ((bufOneRecord.drop recOne.offset).take 30).getD 28 0
              + ((bufOneRecord.drop recOne.offset).take 30).getD 29 0) := by
  have hmem : recOne ∈ scan bufOneRecord := by
    rw [scan, scanFrom_cons bufOneRecord 0 0 (by decide) (by decide),
      scanFrom_none bufOneRecord (0 + 4) (by decide)]
    exact List.mem_singleton_self _
  exact ⟨hmem, scan_values_decoded bufOneRecord recOne hmem⟩
